import Mathlib

/-!
# Verification of the llmrouter flow engine

Shallow embedding of the llmrouter repository's flow parser
(`src/flows/parser.ts`), flow executor (`src/flows/executor.ts`),
provider clients (`src/llm/openai.ts`, `src/llm/claude.ts`) and the
serverless proxy handler (`api/chat.ts`), together with proofs of the
specified behavioral properties.

Strings are modelled by Lean `String` (a packed `List Char`); the
JavaScript string operations used by the source (`trim`, `split`,
`toLowerCase`, regular-expression word tests) are embedded as explicit
functions on the character list.  JavaScript string truthiness (`!s`)
is modelled as equality with `""`.  `Date.now()` is modelled by a
logical clock (a `Nat` threaded through the executor); only the
presence and relative order of timestamps is ever asserted.
-/

namespace LLMRouter

/-! ## JavaScript string primitives -/

/-- Whitespace class of JavaScript's `\s` (ASCII part): space, tab,
newline, carriage return, vertical tab, form feed. -/
def jsIsSpace (c : Char) : Bool :=
  c == ' ' || c == '\t' || c == '\n' || c == '\r' || c == '\x0b' || c == '\x0c'

/-- Drop leading and trailing whitespace from a character list
(JavaScript `String.prototype.trim`). -/
def trimChars (l : List Char) : List Char :=
  ((l.dropWhile jsIsSpace).reverse.dropWhile jsIsSpace).reverse

/-- JavaScript `s.trim()`. -/
def jsTrim (s : String) : String :=
  ⟨trimChars s.data⟩

/-- Split a character list at every character satisfying `p`, keeping
empty pieces (JavaScript `s.split(/[c...]/)` for a single-character
class). -/
def splitChars (p : Char → Bool) : List Char → List (List Char)
  | [] => [[]]
  | c :: rest =>
    let r := splitChars p rest
    if p c then [] :: r
    else
      match r with
      | [] => [[c]]
      | h :: t => (c :: h) :: t

/-- JavaScript `s.split(/[...]/)` for a single-character class `p`. -/
def jsSplit (p : Char → Bool) (s : String) : List String :=
  (splitChars p s.data).map (fun l => ⟨l⟩)

/-- JavaScript `s.split(/\s+/)` for an already-trimmed `s`: the
whitespace-separated words.  (Splitting on single whitespace characters
and discarding empty pieces agrees with splitting on whitespace runs
whenever `s` has no leading or trailing whitespace.) -/
def jsWords (s : String) : List String :=
  (jsSplit jsIsSpace s).filter (fun w => w ≠ "")

/-- JavaScript `s.toLowerCase()` (ASCII case folding, which is all the
source's keyword comparisons rely on). -/
def jsToLower (s : String) : String :=
  ⟨s.data.map Char.toLower⟩

/-! ## Flow parser (`src/flows/parser.ts`) -/

/-- Structure `FlowStep` from `parser.ts`. -/
structure FlowStep where
  order : Nat
  instruction : String
  usesPreviousOutput : Bool
deriving DecidableEq, Repr

/-- Structure `ParsedFlow` from `parser.ts`. -/
structure ParsedFlow where
  steps : List FlowStep
  rawDescription : String
deriving DecidableEq, Repr

/-- Constant `STEP_KEYWORDS` from `parser.ts`. -/
def STEP_KEYWORDS : List String :=
  ["first", "then", "next", "after that", "finally", "lastly",
   "subsequently", "following that", "and then"]

/-- The keyword-splitting loop of `parseFlowDescription` (`parser.ts`
lines 41–69): walk the word list, closing the current segment at every
step keyword (two-word keywords consume the following word), and close
the trailing segment at the end.  `cur` is the accumulated
`currentSegment` (words joined with trailing spaces); a segment is
pushed only when its trimmed text is nonempty. -/
def keywordSplit : List String → String → List String
  | [], cur => if jsTrim cur ≠ "" then [jsTrim cur] else []
  | w :: rest, cur =>
    let word := jsToLower w
    let nextWord := match rest with | [] => "" | nw :: _ => jsToLower nw
    let twoWords := word ++ " " ++ nextWord
    if STEP_KEYWORDS.contains twoWords then
      (if jsTrim cur ≠ "" then [jsTrim cur] else []) ++
        (match rest with
         | [] => []
         | _ :: rest2 => keywordSplit rest2 "")
    else if STEP_KEYWORDS.contains word then
      (if jsTrim cur ≠ "" then [jsTrim cur] else []) ++ keywordSplit rest ""
    else
      keywordSplit rest (cur ++ w ++ " ")

/-- Punctuation fallback of `parseFlowDescription` (`parser.ts` line 74):
`normalized.split(/[,;.]/).filter(s => s.trim())`. -/
def punctSegments (s : String) : List String :=
  (jsSplit (fun c => c == ',' || c == ';' || c == '.') s).filter
    (fun x => jsTrim x ≠ "")

/-- Segment selection of `parseFlowDescription` (`parser.ts` lines
71–76): the keyword segments when there are more than one, else the
punctuation split. -/
def chosenSegments (normalized : String) : List String :=
  if (keywordSplit (jsWords normalized) "").length ≤ 1 then punctSegments normalized
  else keywordSplit (jsWords normalized) ""

/-- Segment selection of `parseFlowDescription` (`parser.ts` lines
71–81): keyword segments if more than one, else the punctuation split,
else the whole normalized text as a single segment. -/
def segmentsOf (normalized : String) : List String :=
  if (chosenSegments normalized).length = 0 then [normalized]
  else chosenSegments normalized

/-- Step creation of `parseFlowDescription` (`parser.ts` lines 84–93):
`segments.forEach((segment, index) => { ... })`, pushing a step with
`order = index + 1` and `usesPreviousOutput = index > 0` whenever the
trimmed segment is nonempty.  `i` is the running `forEach` index. -/
def stepsFromSegs : Nat → List String → List FlowStep
  | _, [] => []
  | i, seg :: rest =>
    let instruction := jsTrim seg
    (if instruction ≠ "" then
      [{ order := i + 1, instruction := instruction,
         usesPreviousOutput := decide (0 < i) }]
     else []) ++ stepsFromSegs (i + 1) rest

/-- Function `parseFlowDescription` from `parser.ts`.  The guard
`!description || description.trim() === ''` is the first disjunct
(JS falsiness of a string is equality with `""`) or the second. -/
def parseFlowDescription (description : String) : ParsedFlow :=
  if description = "" ∨ jsTrim description = "" then
    { steps := [], rawDescription := description }
  else
    let normalized := jsTrim description
    { steps := stepsFromSegs 0 (segmentsOf normalized),
      rawDescription := description }

/-- Result record of `validateFlow` (`parser.ts`). -/
structure ValidationResult where
  valid : Bool
  error : Option String
deriving DecidableEq, Repr

/-- The per-step loop of `validateFlow` (`parser.ts` lines 109–116):
fail on the first step whose instruction is falsy or trims to `""`. -/
def validateSteps : List FlowStep → ValidationResult
  | [] => { valid := true, error := none }
  | s :: rest =>
    if s.instruction = "" ∨ jsTrim s.instruction = "" then
      { valid := false,
        error := some ("Step " ++ toString s.order ++ " has no instruction") }
    else validateSteps rest

/-- Function `validateFlow` from `parser.ts`. -/
def validateFlow (flow : ParsedFlow) : ValidationResult :=
  if flow.steps.length = 0 then
    { valid := false, error := some "Flow must contain at least one step" }
  else validateSteps flow.steps

/-! ### The reference-word test of `formatStepPrompt`

`parser.ts` line 127 tests the instruction against the regular
expression `/\b(this|that|it|the (result|output|response|text|content))\b/i`.
The embedding scans every position of the string for a case-insensitive
occurrence of one of the alternatives delimited by word boundaries
(`\w = [A-Za-z0-9_]`). -/

/-- JavaScript `\w`: ASCII letters, digits, underscore. -/
def isWordChar (c : Char) : Bool :=
  c.isAlpha || c.isDigit || c == '_'

/-- The alternatives of the regular expression, lowercase. -/
def REF_PATTERNS : List String :=
  ["this", "that", "it", "the result", "the output", "the response",
   "the text", "the content"]

/-- Case-insensitively match pattern `p` at the head of `s`, returning
the remainder on success. -/
def matchPat : List Char → List Char → Option (List Char)
  | [], s => some s
  | _ :: _, [] => none
  | p :: ps, c :: cs => if c.toLower == p then matchPat ps cs else none

/-- Does some alternative match at this position, with a word boundary
after it?  (Every alternative ends in a word character, so the closing
`\b` requires the next character — if any — to be a non-word
character.) -/
def patAt (s : List Char) : Bool :=
  REF_PATTERNS.any (fun w =>
    match matchPat w.data s with
    | some [] => true
    | some (c :: _) => !isWordChar c
    | none => false)

/-- Scan the string for a boundary-delimited occurrence.  `prevIsWord`
records whether the preceding character was a word character (every
alternative begins with a word character, so the opening `\b` requires
the preceding character — if any — to be a non-word character). -/
def refScan (prevIsWord : Bool) : List Char → Bool
  | [] => false
  | c :: rest => (!prevIsWord && patAt (c :: rest)) || refScan (isWordChar c) rest

/-- The test `/\b(this|that|it|the (result|output|response|text|content))\b/i.test(prompt)`
from `parser.ts` line 127. -/
def referencesOutput (s : String) : Bool :=
  refScan false s.data

/-- Function `formatStepPrompt` from `parser.ts` lines 121–139.  The TypeScript
optional parameter `previousOutput?: string` is an `Option String`;
the truthiness test `step.usesPreviousOutput && previousOutput` is
`usesPreviousOutput = true` together with the previous output being
present and nonempty. -/
def formatStepPrompt (step : FlowStep) (previousOutput : Option String) : String :=
  let prompt := step.instruction
  if step.usesPreviousOutput = true ∧ previousOutput.getD "" ≠ "" then
    if referencesOutput prompt then
      "Given this content:\n\n" ++ previousOutput.getD "" ++ "\n\n" ++ prompt
    else
      prompt ++ "\n\nContent to work with:\n" ++ previousOutput.getD ""
  else
    prompt

/-! ## Shared LLM types (`src/llm/types.ts`) -/

/-- Message roles (`'user' | 'assistant' | 'system'`). -/
inductive Role
  | user
  | assistant
  | system
deriving DecidableEq, Repr

/-- Structure `Message` from `types.ts`. -/
structure Message where
  role : Role
  content : String
deriving DecidableEq, Repr

/-- Structure `ChatRequest` from `types.ts`; optional fields are `Option`s
(TypeScript `undefined` is `none`). -/
structure ChatRequest where
  messages : List Message
  temperature : Option Float := none
  maxTokens : Option Nat := none
  stream : Option Bool := none

/-- Token usage counts from `types.ts`. -/
structure Usage where
  promptTokens : Nat
  completionTokens : Nat
  totalTokens : Nat
deriving DecidableEq, Repr

/-- Structure `ChatResponse` from `types.ts`; `usage` is optional (absent in
streaming mode). -/
structure ChatResponse where
  content : String
  provider : String
  model : String
  usage : Option Usage := none
deriving DecidableEq, Repr

/-! ## Flow executor (`src/flows/executor.ts`) -/

/-- Type `StepStatus` from `executor.ts`. -/
inductive StepStatus
  | pending
  | running
  | completed
  | error
deriving DecidableEq, Repr

/-- Structure `StepExecution` from `executor.ts`.  Timestamps come from the
logical clock. -/
structure StepExecution where
  step : FlowStep
  status : StepStatus
  output : Option String := none
  error : Option String := none
  startTime : Option Nat := none
  endTime : Option Nat := none
deriving DecidableEq, Repr

/-- Flow-level status (`'running' | 'completed' | 'error'`). -/
inductive FlowStatus
  | running
  | completed
  | error
deriving DecidableEq, Repr

/-- Structure `FlowExecution` from `executor.ts`. -/
structure FlowExecution where
  steps : List StepExecution
  status : FlowStatus
  currentStepIndex : Nat
  startTime : Nat
  endTime : Option Nat := none
deriving DecidableEq, Repr

/-- A provider client, as the executor sees it: `llmClient.chat` takes
a `ChatRequest` and either returns a `ChatResponse` or throws an
`LLMError`, modelled by its human-readable message.  The first
argument counts the calls made so far in this execution, so that a
client model can succeed or fail per call (one call is made per step,
so the call index is the step index). -/
def LLMClient : Type :=
  Nat → ChatRequest → Except String ChatResponse

/-- The request the executor sends for one step (`executor.ts` lines
72–78): a single user message carrying the built prompt; streaming is
requested only when a per-step stream observer was supplied (none is
modelled here, so `stream = false`). -/
def mkStepRequest (prompt : String) : ChatRequest :=
  { messages := [{ role := Role.user, content := prompt }], stream := some false }

/-- Replace the element at index `i` (the in-place mutation of
`execution.steps[i]`). -/
def updateAt : Nat → (StepExecution → StepExecution) →
    List StepExecution → List StepExecution
  | _, _, [] => []
  | 0, f, se :: rest => f se :: rest
  | n + 1, f, se :: rest => se :: updateAt n f rest

/-- Update `stepExecution.status = 'running'; stepExecution.startTime = Date.now()`
(`executor.ts` lines 58–59). -/
def runningUpdate (t : Nat) (se : StepExecution) : StepExecution :=
  { se with status := StepStatus.running, startTime := some t }

/-- Update `stepExecution.output = ...; status = 'completed'; endTime = ...`
(`executor.ts` lines 80–82). -/
def completedUpdate (content : String) (t : Nat) (se : StepExecution) : StepExecution :=
  { se with status := StepStatus.completed, output := some content,
            endTime := some t }

/-- Update `stepExecution.status = 'error'; error = ...; endTime = ...`
(`executor.ts` lines 92–94). -/
def errorUpdate (msg : String) (t : Nat) (se : StepExecution) : StepExecution :=
  { se with status := StepStatus.error, error := some msg, endTime := some t }

/-- The execution state after marking step `i` running and setting
`currentStepIndex = i` (`executor.ts` lines 57–60). -/
def markRunning (exec : FlowExecution) (i t : Nat) : FlowExecution :=
  { exec with steps := updateAt i (runningUpdate t) exec.steps,
              currentStepIndex := i }

/-- The execution state after step `i` succeeded. -/
def markCompleted (exec : FlowExecution) (i : Nat) (content : String)
    (t : Nat) : FlowExecution :=
  { exec with steps := updateAt i (completedUpdate content t) exec.steps }

/-- The execution state after step `i` failed: the step is marked
`error` and the flow status and end time are set (`executor.ts` lines
92–96). -/
def markError (exec : FlowExecution) (i : Nat) (msg : String) (t : Nat) :
    FlowExecution :=
  { exec with steps := updateAt i (errorUpdate msg t) exec.steps,
              status := FlowStatus.error, endTime := some t }

/-- The execution state after the loop ran to completion
(`executor.ts` lines 107–108). -/
def markFlowCompleted (exec : FlowExecution) (t : Nat) : FlowExecution :=
  { exec with status := FlowStatus.completed, endTime := some t }

/-- The step loop of `FlowExecutor.execute` (`executor.ts` lines
56–105), recursing over the list of remaining flow steps (`rem`),
with `i` the index of the first remaining step.  Returns the progress
notifications issued (each a value snapshot of the execution at
notification time, in chronological order), the requests sent to the
provider client (in order), and either the thrown error or the
returned `FlowExecution`.  `t` is the logical clock; each `Date.now()`
reading advances it. -/
def runStepsAux (client : LLMClient) (exec : FlowExecution) (i : Nat)
    (rem : List FlowStep) (prevOutput : String) (t : Nat) :
    List FlowExecution × List ChatRequest × Except String FlowExecution :=
  match rem with
  | [] => ([markFlowCompleted exec t], [], Except.ok (markFlowCompleted exec t))
  | step :: rem2 =>
    let exec1 := markRunning exec i t
    let prompt := formatStepPrompt step (some prevOutput)
    match client i (mkStepRequest prompt) with
    | Except.ok response =>
      let exec2 := markCompleted exec1 i response.content (t + 1)
      let rest := runStepsAux client exec2 (i + 1) rem2 response.content (t + 2)
      (exec1 :: exec2 :: rest.1, mkStepRequest prompt :: rest.2.1, rest.2.2)
    | Except.error msg =>
      let exec2 := markError exec1 i msg (t + 1)
      ([exec1, exec2], [mkStepRequest prompt], Except.error msg)

/-- The step loop from step `i` on: the remaining steps are
`flow.steps.drop i` (the loop `for (let i = 0; ...)` visits
`flow.steps[i]`). -/
def runSteps (client : LLMClient) (flow : ParsedFlow) (exec : FlowExecution)
    (i : Nat) (prevOutput : String) (t : Nat) :
    List FlowExecution × List ChatRequest × Except String FlowExecution :=
  runStepsAux client exec i (flow.steps.drop i) prevOutput t

/-- The initial `StepExecution` of one step (`executor.ts` lines
40–43). -/
def pendingInit (step : FlowStep) : StepExecution :=
  { step := step, status := StepStatus.pending }

/-- The `FlowExecution` built at the start of `execute` (`executor.ts`
lines 39–47): every step pending, flow running, index 0. -/
def initialExecution (flow : ParsedFlow) : FlowExecution :=
  { steps := flow.steps.map pendingInit,
    status := FlowStatus.running,
    currentStepIndex := 0,
    startTime := 0 }

/-- Method `FlowExecutor.execute` (`executor.ts` lines 33–116) with a progress
observer supplied and no per-step stream observer.  Returns the
chronological list of progress notifications (the first is the initial
all-pending snapshot), the requests sent to the client, and the
outcome (thrown error or returned `FlowExecution`). -/
def execute (client : LLMClient) (flow : ParsedFlow) (initialInput : String) :
    List FlowExecution × List ChatRequest × Except String FlowExecution :=
  let rest := runSteps client flow (initialExecution flow) 0 initialInput 1
  (initialExecution flow :: rest.1, rest.2.1, rest.2.2)

/-- The execution pipeline of the flow UI (`src/ui/flows.ts`,
`handleExecuteFlow` lines 121–140): validate the parsed flow first and
stop — issuing no notification and no provider call — when validation
fails; otherwise run the executor. -/
def executeFlowPipeline (client : LLMClient) (flow : ParsedFlow)
    (initialInput : String) :
    List FlowExecution × List ChatRequest × Except String FlowExecution :=
  let v := validateFlow flow
  if v.valid then execute client flow initialInput
  else ([], [], Except.error (v.error.getD "Invalid flow"))

/-- A provider client that always succeeds, answering call `i` whose
request carries prompt `p` with content `f i p`. -/
def okClient (f : Nat → String → String) : LLMClient :=
  fun i req =>
    Except.ok { content := f i ((req.messages.map Message.content).headD ""),
                provider := "test", model := "test" }

/-- A provider client that succeeds (with contents given by `f`) on
every call before call `k` and fails with message `msg` from call `k`
on. -/
def failClient (f : Nat → String → String) (k : Nat) (msg : String) : LLMClient :=
  fun i req =>
    if i < k then okClient f i req else Except.error msg

/-! ## Claude client request construction (`src/llm/claude.ts`) -/

/-- One entry of the wire-format `messages` array sent to the Claude
backend (role is the literal string written on the wire). -/
structure ClaudeWireMessage where
  role : String
  content : String
deriving DecidableEq, Repr

/-- The request body built by `ClaudeClient.chat` (`claude.ts` lines
25–35). -/
structure ClaudeBody where
  model : String
  messages : List ClaudeWireMessage
  system : Option String
  temperature : Float
  max_tokens : Nat
  stream : Bool

/-- The filter `m.role === 'system'` (`claude.ts` line 22). -/
def isSystemMessage (m : Message) : Bool :=
  decide (m.role = Role.system)

/-- The filter `m.role !== 'system'` (`claude.ts` line 23). -/
def isConversationMessage (m : Message) : Bool :=
  decide (m.role ≠ Role.system)

/-- The body construction of `ClaudeClient.chat` (`claude.ts` lines
19–35): system messages are filtered out of the conversation; the
top-level `system` field is the first system message's content, or
absent when there is none; remaining roles map to the wire strings
`"user"`/`"assistant"`.  `hasOnStream` models `!!onStream`, the
default for the `stream` flag. -/
def claudeBuildBody (model : String) (req : ChatRequest) (hasOnStream : Bool) :
    ClaudeBody :=
  let systemMessages := req.messages.filter isSystemMessage
  let conversationMessages := req.messages.filter isConversationMessage
  { model := model,
    messages := conversationMessages.map (fun m =>
      { role := if m.role = Role.user then "user" else "assistant",
        content := m.content }),
    system := match systemMessages with
      | [] => none
      | m :: _ => some m.content,
    temperature := req.temperature.getD 0.7,
    max_tokens := req.maxTokens.getD 2000,
    stream := req.stream.getD hasOnStream }

/-- Drop every system message after the first one, keeping everything
else (used to state that extra system messages are silently ignored).
`seenSystem` records whether a system message has occurred already. -/
def dropExtraSystems (seenSystem : Bool) : List Message → List Message
  | [] => []
  | m :: rest =>
    if m.role = Role.system then
      if seenSystem then dropExtraSystems true rest
      else m :: dropExtraSystems true rest
    else m :: dropExtraSystems seenSystem rest

/-! ## Streaming handlers (`openai.ts` / `claude.ts`, `handleStream`)

Both handlers read the response body chunk by chunk, split on
newlines, and process each `data: `-prefixed payload.  The embedding
starts from the decoded payloads, each represented by the JSON fields
the handler reads (a payload that fails to parse is `invalid` and is
skipped, matching the `catch` that warns and continues). -/

/-- Structure `StreamChunk` from `types.ts`: one observer invocation. -/
structure StreamChunk where
  content : String
  done : Bool
deriving DecidableEq, Repr

/-- One `data:` payload as seen by `OpenAIClient.handleStream`:
the literal `[DONE]` sentinel, a parsed JSON object read as
`choices[0]?.delta?.content` (absent fields give `none`), or
unparseable JSON. -/
inductive OpenAIData
  | doneMarker
  | delta (content : Option String)
  | invalid
deriving DecidableEq, Repr

/-- One `data:` payload as seen by `ClaudeClient.handleStream`: a
`content_block_delta` event read as `delta?.text`, a `message_stop`
event, an event of any other type, or unparseable JSON. -/
inductive ClaudeData
  | contentBlockDelta (text : Option String)
  | messageStop
  | otherEvent
  | invalid
deriving DecidableEq, Repr

/-- The read loop of `OpenAIClient.handleStream` (`openai.ts` lines
73–104).  `emitted` is the chronological list of observer invocations
so far; `fullContent` the accumulated content.  Returns both at end of
stream. -/
def openAIStreamLoop (events : List OpenAIData) (emitted : List StreamChunk)
    (fullContent : String) : List StreamChunk × String :=
  match events with
  | [] => (emitted, fullContent)
  | OpenAIData.doneMarker :: rest =>
    openAIStreamLoop rest (emitted ++ [{ content := "", done := true }]) fullContent
  | OpenAIData.delta c :: rest =>
    let content := c.getD ""
    if content = "" then openAIStreamLoop rest emitted fullContent
    else openAIStreamLoop rest (emitted ++ [{ content := content, done := false }])
      (fullContent ++ content)
  | OpenAIData.invalid :: rest => openAIStreamLoop rest emitted fullContent

/-- Method `OpenAIClient.handleStream`: the observer invocations and the
returned `ChatResponse` (accumulated content, provider and model
identifiers, no usage). -/
def openAIHandleStream (model : String) (events : List OpenAIData) :
    List StreamChunk × ChatResponse :=
  let r := openAIStreamLoop events [] ""
  (r.1, { content := r.2, provider := "openai", model := model })

/-- The read loop of `ClaudeClient.handleStream` (`claude.ts` lines
82–113). -/
def claudeStreamLoop (events : List ClaudeData) (emitted : List StreamChunk)
    (fullContent : String) : List StreamChunk × String :=
  match events with
  | [] => (emitted, fullContent)
  | ClaudeData.contentBlockDelta txt :: rest =>
    let content := txt.getD ""
    if content = "" then claudeStreamLoop rest emitted fullContent
    else claudeStreamLoop rest (emitted ++ [{ content := content, done := false }])
      (fullContent ++ content)
  | ClaudeData.messageStop :: rest =>
    claudeStreamLoop rest (emitted ++ [{ content := "", done := true }]) fullContent
  | ClaudeData.otherEvent :: rest => claudeStreamLoop rest emitted fullContent
  | ClaudeData.invalid :: rest => claudeStreamLoop rest emitted fullContent

/-- Method `ClaudeClient.handleStream`: the observer invocations and the
returned `ChatResponse`. -/
def claudeHandleStream (model : String) (events : List ClaudeData) :
    List StreamChunk × ChatResponse :=
  let r := claudeStreamLoop events [] ""
  (r.1, { content := r.2, provider := "claude", model := model })

/-- The contents of the non-terminal invocations in an observer call
list. -/
def nonTerminalContents (chunks : List StreamChunk) : List String :=
  chunks.filterMap (fun c => if c.done then none else some c.content)

/-- Concatenation of a list of strings, in order. -/
def concatAll (l : List String) : String :=
  l.foldr (fun a b => a ++ b) ""

/-! ## Serverless proxy handler (`api/chat.ts`) -/

/-- HTTP request methods the handler distinguishes. -/
inductive HttpMethod
  | GET
  | POST
  | PUT
  | PATCH
  | DELETE
  | OPTIONS
  | HEAD
deriving DecidableEq, Repr

/-- The fields of the request body the handler reads before
dispatching; each is optional (absent JSON field = `none`; JS
truthiness of a string is nonemptiness, of an array it is presence). -/
structure ReqBody where
  provider : Option String := none
  model : Option String := none
  messages : Option (List Message) := none
deriving DecidableEq, Repr

/-- What the handler does with a request, up to the point where it
either responds locally or forwards to a provider backend (whose
response depends on the network and is outside the handler). -/
inductive HandlerOutcome
  | responded (status : Nat)
  | forwardedToProvider (provider : String)
deriving DecidableEq, Repr

/-- Function `handler` from `api/chat.ts` (lines 15–55).  `OPTIONS` is answered
200 (CORS preflight) before the method check; non-POST gets 405; a
POST without a body throws on destructuring and is caught, giving 500;
a falsy `provider`, `model` or `messages` gives 400; an unknown
provider gives 400; otherwise the request is forwarded to the named
backend. -/
def apiHandler (method : HttpMethod) (body : Option ReqBody) : HandlerOutcome :=
  if method = HttpMethod.OPTIONS then HandlerOutcome.responded 200
  else if method ≠ HttpMethod.POST then HandlerOutcome.responded 405
  else
    match body with
    | none => HandlerOutcome.responded 500
    | some b =>
      if b.provider.getD "" = "" ∨ b.model.getD "" = "" ∨ b.messages = none then
        HandlerOutcome.responded 400
      else if b.provider = some "claude" then
        HandlerOutcome.forwardedToProvider "claude"
      else if b.provider = some "openai" then
        HandlerOutcome.forwardedToProvider "openai"
      else HandlerOutcome.responded 400

/-! ## Generic list and string lemmas -/

theorem head?_dropWhile {α} (p : α → Bool) :
    ∀ (l : List α) (c : α), (l.dropWhile p).head? = some c → p c = false := by
  intro l
  induction l with
  | nil => intro c h; simp [List.dropWhile] at h
  | cons a t ih =>
    intro c h
    by_cases hp : p a
    · rw [List.dropWhile_cons_of_pos hp] at h
      exact ih c h
    · rw [List.dropWhile_cons_of_neg hp] at h
      simp at h
      subst h
      simpa using hp

theorem dropWhile_eq_self_of_head {α} (p : α → Bool) (l : List α)
    (h : ∀ c, l.head? = some c → p c = false) : l.dropWhile p = l := by
  cases l with
  | nil => rfl
  | cons a t =>
    have ha := h a rfl
    simp [List.dropWhile_cons, ha]

theorem trimChars_trimChars (l : List Char) :
    trimChars (trimChars l) = trimChars l := by
  unfold trimChars
  have h1 : ((((l.dropWhile jsIsSpace).reverse.dropWhile jsIsSpace).reverse).dropWhile
      jsIsSpace) = ((l.dropWhile jsIsSpace).reverse.dropWhile jsIsSpace).reverse := by
    apply dropWhile_eq_self_of_head
    intro c hc
    obtain ⟨t, ht⟩ := List.dropWhile_suffix (l := (l.dropWhile jsIsSpace).reverse)
      jsIsSpace
    have hA : l.dropWhile jsIsSpace =
        ((l.dropWhile jsIsSpace).reverse.dropWhile jsIsSpace).reverse ++ t.reverse := by
      have := congrArg List.reverse ht
      simpa using this.symm
    have hne : (((l.dropWhile jsIsSpace).reverse.dropWhile jsIsSpace).reverse) ≠ [] := by
      intro h0
      rw [h0] at hc
      simp at hc
    have hhead : (l.dropWhile jsIsSpace).head? = some c := by
      rw [hA, List.head?_append_of_ne_nil _ hne]
      exact hc
    exact head?_dropWhile jsIsSpace l c hhead
  rw [h1, List.reverse_reverse, List.dropWhile_idempotent]

theorem jsTrim_jsTrim (s : String) : jsTrim (jsTrim s) = jsTrim s := by
  apply String.ext
  exact trimChars_trimChars s.data

theorem jsTrim_empty : jsTrim "" = "" := rfl

/-! ## Parser lemmas -/

theorem keywordSplit_seg_mem (cur s : String)
    (hs : s ∈ (if jsTrim cur ≠ "" then [jsTrim cur] else [])) :
    jsTrim s = s ∧ s ≠ "" := by
  split at hs
  · simp at hs
    subst hs
    next hcur => exact ⟨jsTrim_jsTrim cur, hcur⟩
  · simp at hs

theorem keywordSplit_cons (w : String) (rest : List String) (cur : String) :
    keywordSplit (w :: rest) cur =
      (if STEP_KEYWORDS.contains
            (jsToLower w ++ " " ++
              (match rest with | [] => "" | nw :: _ => jsToLower nw)) then
        (if jsTrim cur ≠ "" then [jsTrim cur] else []) ++
          (match rest with
           | [] => []
           | _ :: rest2 => keywordSplit rest2 "")
      else if STEP_KEYWORDS.contains (jsToLower w) then
        (if jsTrim cur ≠ "" then [jsTrim cur] else []) ++ keywordSplit rest ""
      else
        keywordSplit rest (cur ++ w ++ " ")) := by
  rw [keywordSplit.eq_def]

theorem keywordSplit_mem :
    ∀ (n : Nat) (words : List String), words.length ≤ n → ∀ (cur s : String),
      s ∈ keywordSplit words cur → jsTrim s = s ∧ s ≠ "" := by
  intro n
  induction n with
  | zero =>
    intro words hlen cur s hs
    have : words = [] := List.eq_nil_of_length_eq_zero (Nat.le_zero.mp hlen)
    subst this
    simp only [keywordSplit] at hs
    exact keywordSplit_seg_mem cur s hs
  | succ n ih =>
    intro words hlen cur s hs
    cases words with
    | nil =>
      simp only [keywordSplit] at hs
      exact keywordSplit_seg_mem cur s hs
    | cons w rest =>
      rw [keywordSplit_cons] at hs
      have hrest : rest.length ≤ n := by
        simp at hlen
        omega
      split at hs
      · rcases List.mem_append.mp hs with hl | hr
        · exact keywordSplit_seg_mem cur s hl
        · cases rest with
          | nil => simp at hr
          | cons nw rest2 =>
            have hdrop : rest2.length ≤ n := by
              simp at hlen
              omega
            exact ih rest2 hdrop "" s hr
      · split at hs
        · rcases List.mem_append.mp hs with hl | hr
          · exact keywordSplit_seg_mem cur s hl
          · exact ih rest hrest "" s hr
        · exact ih rest hrest (cur ++ w ++ " ") s hs

theorem punctSegments_mem (x : String) (s : String) (hs : s ∈ punctSegments x) :
    jsTrim s ≠ "" := by
  unfold punctSegments at hs
  have := List.of_mem_filter hs
  simpa using this

theorem chosenSegments_mem (normalized : String) (s : String)
    (hs : s ∈ chosenSegments normalized) : jsTrim s ≠ "" := by
  unfold chosenSegments at hs
  split at hs
  · exact punctSegments_mem normalized s hs
  · have := keywordSplit_mem (jsWords normalized).length (jsWords normalized)
      (Nat.le_refl _) "" s hs
    rw [this.1]
    exact this.2

theorem segmentsOf_mem (normalized : String) (hid : jsTrim normalized = normalized)
    (hne : normalized ≠ "") :
    ∀ s ∈ segmentsOf normalized, jsTrim s ≠ "" := by
  intro s hs
  unfold segmentsOf at hs
  split at hs
  · simp at hs
    subst hs
    rw [hid]
    exact hne
  · exact chosenSegments_mem normalized s hs

theorem segmentsOf_ne_nil (normalized : String) : segmentsOf normalized ≠ [] := by
  unfold segmentsOf
  split
  · simp
  · next h =>
    intro hnil
    rw [hnil] at h
    simp at h

theorem stepsFromSegs_map_order :
    ∀ (segs : List String) (i : Nat), (∀ s ∈ segs, jsTrim s ≠ "") →
      (stepsFromSegs i segs).map FlowStep.order = List.range' (i + 1) segs.length := by
  intro segs
  induction segs with
  | nil => intro i _; rfl
  | cons seg rest ih =>
    intro i h
    have hseg : jsTrim seg ≠ "" := h seg (List.mem_cons_self _ _)
    rw [stepsFromSegs, if_pos hseg]
    simp only [List.singleton_append, List.map_cons, List.length_cons]
    rw [ih (i + 1) (fun s hs => h s (List.mem_cons_of_mem _ hs))]
    rfl

theorem stepsFromSegs_head (seg : String) (rest : List String) (i : Nat)
    (hseg : jsTrim seg ≠ "") :
    (stepsFromSegs i (seg :: rest)).head? =
      some { order := i + 1, instruction := jsTrim seg,
             usesPreviousOutput := decide (0 < i) } := by
  rw [stepsFromSegs, if_pos hseg]
  rfl

/-! ## Executor lemmas -/

theorem updateAt_length (i : Nat) (f : StepExecution → StepExecution) :
    ∀ (l : List StepExecution), (updateAt i f l).length = l.length := by
  intro l
  induction l generalizing i with
  | nil => simp [updateAt]
  | cons se rest ih =>
    cases i with
    | zero => simp [updateAt]
    | succ n => simp [updateAt, ih]

theorem updateAt_get? (i : Nat) (f : StepExecution → StepExecution) :
    ∀ (l : List StepExecution) (j : Nat),
      (updateAt i f l).get? j = if j = i then (l.get? i).map f else l.get? j := by
  intro l
  induction l generalizing i with
  | nil =>
    intro j
    simp [updateAt]
  | cons se rest ih =>
    intro j
    cases i with
    | zero =>
      cases j with
      | zero => simp [updateAt]
      | succ m => simp [updateAt]
    | succ n =>
      cases j with
      | zero => simp [updateAt]
      | succ m =>
        simp only [updateAt, List.get?_cons_succ]
        rw [ih n m]
        by_cases hm : m = n
        · simp [hm]
        · have : ¬ (m + 1 = n + 1) := by omega
          simp [hm, this]

theorem getLast?_cons_some {α : Type} (x : α) (l : List α) (y : α)
    (h : l.getLast? = some y) : (x :: l).getLast? = some y := by
  cases l with
  | nil => simp at h
  | cons b t => exact h

theorem markRunning_steps_length (exec : FlowExecution) (i t : Nat) :
    (markRunning exec i t).steps.length = exec.steps.length := by
  simp [markRunning, updateAt_length]

theorem markCompleted_steps_length (exec : FlowExecution) (i : Nat)
    (content : String) (t : Nat) :
    (markCompleted exec i content t).steps.length = exec.steps.length := by
  simp [markCompleted, updateAt_length]

theorem markError_steps_length (exec : FlowExecution) (i : Nat)
    (msg : String) (t : Nat) :
    (markError exec i msg t).steps.length = exec.steps.length := by
  simp [markError, updateAt_length]

theorem markRunning_steps_get? (exec : FlowExecution) (i t j : Nat) :
    (markRunning exec i t).steps.get? j =
      if j = i then (exec.steps.get? i).map (runningUpdate t)
      else exec.steps.get? j :=
  updateAt_get? i (runningUpdate t) exec.steps j

theorem markCompleted_steps_get? (exec : FlowExecution) (i : Nat)
    (content : String) (t j : Nat) :
    (markCompleted exec i content t).steps.get? j =
      if j = i then (exec.steps.get? i).map (completedUpdate content t)
      else exec.steps.get? j :=
  updateAt_get? i (completedUpdate content t) exec.steps j

theorem markError_steps_get? (exec : FlowExecution) (i : Nat)
    (msg : String) (t j : Nat) :
    (markError exec i msg t).steps.get? j =
      if j = i then (exec.steps.get? i).map (errorUpdate msg t)
      else exec.steps.get? j :=
  updateAt_get? i (errorUpdate msg t) exec.steps j

theorem runSteps_stop (client : LLMClient) (flow : ParsedFlow)
    (exec : FlowExecution) (i : Nat) (prev : String) (t : Nat)
    (h : ¬ i < flow.steps.length) :
    runSteps client flow exec i prev t =
      ([markFlowCompleted exec t], [], Except.ok (markFlowCompleted exec t)) := by
  unfold runSteps
  rw [List.drop_eq_nil_of_le (by omega)]
  rfl

theorem runSteps_ok_step (client : LLMClient) (flow : ParsedFlow)
    (exec : FlowExecution) (i : Nat) (prev : String) (t : Nat)
    (h : i < flow.steps.length) (resp : ChatResponse)
    (hresp : client i (mkStepRequest
        (formatStepPrompt (flow.steps.get ⟨i, h⟩) (some prev))) = Except.ok resp)
    (ns2 : List FlowExecution) (cs2 : List ChatRequest)
    (r2 : Except String FlowExecution)
    (hrec : runSteps client flow
        (markCompleted (markRunning exec i t) i resp.content (t + 1))
        (i + 1) resp.content (t + 2) = (ns2, cs2, r2)) :
    runSteps client flow exec i prev t =
      (markRunning exec i t ::
         markCompleted (markRunning exec i t) i resp.content (t + 1) :: ns2,
       mkStepRequest (formatStepPrompt (flow.steps.get ⟨i, h⟩) (some prev)) :: cs2,
       r2) := by
  unfold runSteps
  rw [List.drop_eq_get_cons h]
  have hrec2 : runStepsAux client
      (markCompleted (markRunning exec i t) i resp.content (t + 1))
      (i + 1) (flow.steps.drop (i + 1)) resp.content (t + 2) = (ns2, cs2, r2) :=
    hrec
  simp only [runStepsAux, hresp, hrec2]

/-- Master lemma for a run in which every provider call from step `i`
on succeeds: the loop completes every remaining step, records each
response as the step's output, counts `2·(N−i)+1` notifications and
`N−i` provider calls, chains each step's response into the next
prompt, and notifies one `running` and one `completed` snapshot per
step, in order. -/
theorem runSteps_ok_master (client : LLMClient) (flow : ParsedFlow)
    (hc : ∀ j req, ∃ resp, client j req = Except.ok resp) :
    ∀ (d i : Nat) (exec : FlowExecution) (prev : String) (t : Nat),
      flow.steps.length - i = d → exec.steps.length = flow.steps.length →
      ∀ ns cs r, runSteps client flow exec i prev t = (ns, cs, r) →
      ∃ final,
        r = Except.ok final ∧
        ns.getLast? = some final ∧
        ns.length = 2 * (flow.steps.length - i) + 1 ∧
        cs.length = flow.steps.length - i ∧
        final.status = FlowStatus.completed ∧
        final.endTime.isSome = true ∧
        final.steps.length = flow.steps.length ∧
        final.currentStepIndex =
          (if i < flow.steps.length then flow.steps.length - 1
           else exec.currentStepIndex) ∧
        (∀ j, j < i → final.steps.get? j = exec.steps.get? j) ∧
        (∀ j, i ≤ j → j < flow.steps.length → ∃ p resp se,
          cs.get? (j - i) = some (mkStepRequest p) ∧
          client j (mkStepRequest p) = Except.ok resp ∧
          final.steps.get? j = some se ∧
          se.status = StepStatus.completed ∧
          se.output = some resp.content ∧
          se.endTime.isSome = true) ∧
        (∀ h : i < flow.steps.length,
          cs.get? 0 = some (mkStepRequest
            (formatStepPrompt (flow.steps.get ⟨i, h⟩) (some prev)))) ∧
        (∀ j st, i ≤ j → flow.steps.get? (j + 1) = some st → ∃ p resp,
          cs.get? (j - i) = some (mkStepRequest p) ∧
          client j (mkStepRequest p) = Except.ok resp ∧
          cs.get? (j + 1 - i) = some (mkStepRequest
            (formatStepPrompt st (some resp.content)))) ∧
        (∀ j, i ≤ j → j < flow.steps.length →
          (∃ e1, ns.get? (2 * (j - i)) = some e1 ∧
            (e1.steps.get? j).map StepExecution.status = some StepStatus.running ∧
            e1.currentStepIndex = j) ∧
          (∃ e2, ns.get? (2 * (j - i) + 1) = some e2 ∧
            (e2.steps.get? j).map StepExecution.status =
              some StepStatus.completed)) := by
  intro d
  induction d with
  | zero =>
    intro i exec prev t hd hlen ns cs r heq
    have hni : ¬ i < flow.steps.length := by omega
    rw [runSteps_stop client flow exec i prev t hni] at heq
    simp only [Prod.mk.injEq] at heq
    obtain ⟨hns, hcs, hr⟩ := heq
    subst hns
    subst hcs
    subst hr
    refine ⟨markFlowCompleted exec t, rfl, by simp, ?_, ?_, rfl, rfl, ?_, ?_,
      ?_, ?_, ?_, ?_, ?_⟩
    · simp
      omega
    · simp
      omega
    · simpa [markFlowCompleted] using hlen
    · rw [if_neg hni]
      rfl
    · intro j _
      rfl
    · intro j hij hjN
      omega
    · intro h'
      exact absurd h' hni
    · intro j st hij hst
      have := (List.get?_eq_some.mp hst).1
      omega
    · intro j hij hjN
      omega
  | succ d ihd =>
    intro i exec prev t hd hlen ns cs r heq
    have h : i < flow.steps.length := by omega
    obtain ⟨resp, hresp⟩ :=
      hc i (mkStepRequest (formatStepPrompt (flow.steps.get ⟨i, h⟩) (some prev)))
    rcases hrec : runSteps client flow
        (markCompleted (markRunning exec i t) i resp.content (t + 1))
        (i + 1) resp.content (t + 2) with ⟨ns2, cs2, r2⟩
    rw [runSteps_ok_step client flow exec i prev t h resp hresp ns2 cs2 r2 hrec]
      at heq
    simp only [Prod.mk.injEq] at heq
    obtain ⟨hns, hcs, hr⟩ := heq
    subst hns
    subst hcs
    subst hr
    have hlen2 : (markCompleted (markRunning exec i t) i resp.content
        (t + 1)).steps.length = flow.steps.length := by
      rw [markCompleted_steps_length, markRunning_steps_length]
      exact hlen
    obtain ⟨final, hfr, hfl, hnsl, hcsl, hfs, hfe, hfsl, hfc, hpre, hmid,
        hhead, hchain, hnotif⟩ :=
      ihd (i + 1) (markCompleted (markRunning exec i t) i resp.content (t + 1))
        resp.content (t + 2) (by omega) hlen2 ns2 cs2 r2 hrec
    have hi' : i < exec.steps.length := by omega
    have hgeti := List.get?_eq_get hi'
    refine ⟨final, hfr, ?_, ?_, ?_, hfs, hfe, hfsl, ?_, ?_, ?_, ?_, ?_, ?_⟩
    · exact getLast?_cons_some _ _ _ (getLast?_cons_some _ _ _ hfl)
    · simp only [List.length_cons]
      omega
    · simp only [List.length_cons]
      omega
    · rw [if_pos h]
      by_cases h2 : i + 1 < flow.steps.length
      · rw [if_pos h2] at hfc
        exact hfc
      · rw [if_neg h2] at hfc
        rw [hfc]
        simp only [markCompleted, markRunning]
        omega
    · intro j hj
      have hji : ¬ j = i := by omega
      rw [hpre j (by omega), markCompleted_steps_get?, if_neg hji,
        markRunning_steps_get?, if_neg hji]
    · intro j hij hjN
      by_cases hji : j = i
      · subst hji
        refine ⟨formatStepPrompt (flow.steps.get ⟨j, h⟩) (some prev), resp,
          completedUpdate resp.content (t + 1)
            (runningUpdate t (exec.steps.get ⟨j, hi'⟩)), ?_, hresp, ?_, rfl,
          rfl, rfl⟩
        · simp
        · rw [hpre j (by omega), markCompleted_steps_get?, if_pos rfl,
            markRunning_steps_get?, if_pos rfl, hgeti]
          rfl
      · obtain ⟨p, resp', se, hc1, hc2, hc3, hc4, hc5, hc6⟩ :=
          hmid j (by omega) hjN
        refine ⟨p, resp', se, ?_, hc2, hc3, hc4, hc5, hc6⟩
        have hsub : j - i = (j - (i + 1)) + 1 := by omega
        rw [hsub, List.get?_cons_succ]
        exact hc1
    · intro h'
      rfl
    · intro j st hij hst
      by_cases hji : j = i
      · subst hji
        obtain ⟨hi1, hgot⟩ := List.get?_eq_some.mp hst
        refine ⟨formatStepPrompt (flow.steps.get ⟨j, h⟩) (some prev), resp,
          by simp, hresp, ?_⟩
        have hsub : j + 1 - j = 1 := by omega
        rw [hsub, List.get?_cons_succ, hhead hi1, hgot]
      · obtain ⟨p, resp', h1, h2, h3⟩ := hchain j st (by omega) hst
        refine ⟨p, resp', ?_, h2, ?_⟩
        · have hsub : j - i = (j - (i + 1)) + 1 := by omega
          rw [hsub, List.get?_cons_succ]
          exact h1
        · have hsub : j + 1 - i = (j + 1 - (i + 1)) + 1 := by omega
          rw [hsub, List.get?_cons_succ]
          exact h3
    · intro j hij hjN
      by_cases hji : j = i
      · subst hji
        constructor
        · refine ⟨markRunning exec j t, by simp, ?_, ?_⟩
          · rw [markRunning_steps_get?, if_pos rfl, hgeti]
            rfl
          · simp [markRunning]
        · refine ⟨markCompleted (markRunning exec j t) j resp.content (t + 1),
            by simp, ?_⟩
          rw [markCompleted_steps_get?, if_pos rfl, markRunning_steps_get?,
            if_pos rfl, hgeti]
          rfl
      · obtain ⟨⟨e1, he1, hs1, hcur1⟩, ⟨e2, he2, hs2⟩⟩ :=
          hnotif j (by omega) hjN
        constructor
        · refine ⟨e1, ?_, hs1, hcur1⟩
          have hsub : 2 * (j - i) = (2 * (j - (i + 1)) + 1) + 1 := by omega
          rw [hsub, List.get?_cons_succ, List.get?_cons_succ]
          exact he1
        · refine ⟨e2, ?_, hs2⟩
          have hsub : 2 * (j - i) + 1 = (2 * (j - (i + 1)) + 1 + 1) + 1 := by
            omega
          rw [hsub, List.get?_cons_succ, List.get?_cons_succ]
          exact he2

theorem runSteps_error_step (client : LLMClient) (flow : ParsedFlow)
    (exec : FlowExecution) (i : Nat) (prev : String) (t : Nat)
    (h : i < flow.steps.length) (msg : String)
    (hresp : client i (mkStepRequest
        (formatStepPrompt (flow.steps.get ⟨i, h⟩) (some prev))) = Except.error msg) :
    runSteps client flow exec i prev t =
      ([markRunning exec i t,
        markError (markRunning exec i t) i msg (t + 1)],
       [mkStepRequest (formatStepPrompt (flow.steps.get ⟨i, h⟩) (some prev))],
       Except.error msg) := by
  unfold runSteps
  rw [List.drop_eq_get_cons h]
  simp only [runStepsAux, hresp]

/-- Master lemma for a run in which every provider call before step
`k` succeeds and the call at step `k` fails with `msg`: the loop
completes steps `i..k−1`, marks step `k` as the error, stops (exactly
`k+1−i` calls, `2·(k+1−i)` notifications), leaves later steps
untouched, and rethrows the error. -/
theorem runSteps_fail_master (client : LLMClient) (flow : ParsedFlow)
    (k : Nat) (msg : String)
    (hbefore : ∀ j req, j < k → ∃ resp, client j req = Except.ok resp)
    (hat : ∀ req, client k req = Except.error msg) :
    ∀ (d i : Nat) (exec : FlowExecution) (prev : String) (t : Nat),
      k - i = d → i ≤ k → k < flow.steps.length →
      exec.steps.length = flow.steps.length →
      ∀ ns cs r, runSteps client flow exec i prev t = (ns, cs, r) →
      r = Except.error msg ∧
      cs.length = k + 1 - i ∧
      ns.length = 2 * (k + 1 - i) ∧
      ∃ final, ns.getLast? = some final ∧
        final.status = FlowStatus.error ∧
        final.endTime.isSome = true ∧
        final.steps.length = flow.steps.length ∧
        (∀ j, j < i → final.steps.get? j = exec.steps.get? j) ∧
        (∀ j, i ≤ j → j < k → ∃ se, final.steps.get? j = some se ∧
          se.status = StepStatus.completed ∧ se.endTime.isSome = true) ∧
        (∃ se, final.steps.get? k = some se ∧ se.status = StepStatus.error ∧
          se.error = some msg ∧ se.endTime.isSome = true) ∧
        (∀ j, k < j → final.steps.get? j = exec.steps.get? j) ∧
        (∀ j, i ≤ j → j ≤ k →
          (∃ e1, ns.get? (2 * (j - i)) = some e1 ∧
            (e1.steps.get? j).map StepExecution.status = some StepStatus.running ∧
            e1.currentStepIndex = j) ∧
          (∃ e2, ns.get? (2 * (j - i) + 1) = some e2 ∧
            (e2.steps.get? j).map StepExecution.status =
              some (if j < k then StepStatus.completed else StepStatus.error))) := by
  intro d
  induction d with
  | zero =>
    intro i exec prev t hd hik hkN hlen ns cs r heq
    have hik' : i = k := by omega
    subst hik'
    have h : i < flow.steps.length := hkN
    rw [runSteps_error_step client flow exec i prev t h msg (hat _)] at heq
    simp only [Prod.mk.injEq] at heq
    obtain ⟨hns, hcs, hr⟩ := heq
    subst hns
    subst hcs
    subst hr
    have hi' : i < exec.steps.length := by omega
    have hgeti := List.get?_eq_get hi'
    refine ⟨rfl, by simp, by simp, markError (markRunning exec i t) i msg (t + 1),
      by simp, by simp [markError], by simp [markError], ?_, ?_, ?_, ?_, ?_, ?_⟩
    · simp [markError, markRunning, updateAt_length, hlen]
    · intro j hj
      have hji : ¬ j = i := by omega
      rw [markError_steps_get?, if_neg hji, markRunning_steps_get?, if_neg hji]
    · intro j hij hjk
      omega
    · refine ⟨errorUpdate msg (t + 1) (runningUpdate t (exec.steps.get ⟨i, hi'⟩)),
        ?_, rfl, rfl, rfl⟩
      rw [markError_steps_get?, if_pos rfl, markRunning_steps_get?, if_pos rfl,
        hgeti]
      rfl
    · intro j hj
      have hji : ¬ j = i := by omega
      rw [markError_steps_get?, if_neg hji, markRunning_steps_get?, if_neg hji]
    · intro j hij hjk
      have hji : j = i := by omega
      subst hji
      constructor
      · refine ⟨markRunning exec j t, by simp, ?_, ?_⟩
        · rw [markRunning_steps_get?, if_pos rfl, hgeti]
          rfl
        · simp [markRunning]
      · refine ⟨markError (markRunning exec j t) j msg (t + 1), by simp, ?_⟩
        rw [if_neg (by omega)]
        rw [markError_steps_get?, if_pos rfl, markRunning_steps_get?, if_pos rfl,
          hgeti]
        rfl
  | succ d ihd =>
    intro i exec prev t hd hik hkN hlen ns cs r heq
    have hiklt : i < k := by omega
    have h : i < flow.steps.length := by omega
    obtain ⟨resp, hresp⟩ :=
      hbefore i (mkStepRequest (formatStepPrompt (flow.steps.get ⟨i, h⟩)
        (some prev))) hiklt
    rcases hrec : runSteps client flow
        (markCompleted (markRunning exec i t) i resp.content (t + 1))
        (i + 1) resp.content (t + 2) with ⟨ns2, cs2, r2⟩
    rw [runSteps_ok_step client flow exec i prev t h resp hresp ns2 cs2 r2 hrec]
      at heq
    simp only [Prod.mk.injEq] at heq
    obtain ⟨hns, hcs, hr⟩ := heq
    subst hns
    subst hcs
    subst hr
    have hlen2 : (markCompleted (markRunning exec i t) i resp.content
        (t + 1)).steps.length = flow.steps.length := by
      rw [markCompleted_steps_length, markRunning_steps_length]
      exact hlen
    obtain ⟨hr2, hcsl, hnsl, final, hfl, hfs, hfe, hfsl, hpre, hmid, hatk,
        hpost, hnotif⟩ :=
      ihd (i + 1) (markCompleted (markRunning exec i t) i resp.content (t + 1))
        resp.content (t + 2) (by omega) (by omega) hkN hlen2 ns2 cs2 r2 hrec
    have hi' : i < exec.steps.length := by omega
    have hgeti := List.get?_eq_get hi'
    refine ⟨hr2, ?_, ?_, final,
      getLast?_cons_some _ _ _ (getLast?_cons_some _ _ _ hfl),
      hfs, hfe, hfsl, ?_, ?_, hatk, ?_, ?_⟩
    · simp only [List.length_cons]
      omega
    · simp only [List.length_cons]
      omega
    · intro j hj
      have hji : ¬ j = i := by omega
      rw [hpre j (by omega), markCompleted_steps_get?, if_neg hji,
        markRunning_steps_get?, if_neg hji]
    · intro j hij hjk
      by_cases hji : j = i
      · subst hji
        refine ⟨completedUpdate resp.content (t + 1)
          (runningUpdate t (exec.steps.get ⟨j, hi'⟩)), ?_, rfl, rfl⟩
        rw [hpre j (by omega), markCompleted_steps_get?, if_pos rfl,
          markRunning_steps_get?, if_pos rfl, hgeti]
        rfl
      · exact hmid j (by omega) hjk
    · intro j hj
      have hji : ¬ j = i := by omega
      rw [hpost j hj, markCompleted_steps_get?, if_neg hji,
        markRunning_steps_get?, if_neg hji]
    · intro j hij hjk
      by_cases hji : j = i
      · subst hji
        constructor
        · refine ⟨markRunning exec j t, by simp, ?_, ?_⟩
          · rw [markRunning_steps_get?, if_pos rfl, hgeti]
            rfl
          · simp [markRunning]
        · refine ⟨markCompleted (markRunning exec j t) j resp.content (t + 1),
            by simp, ?_⟩
          rw [if_pos (by omega)]
          rw [markCompleted_steps_get?, if_pos rfl, markRunning_steps_get?,
            if_pos rfl, hgeti]
          rfl
      · obtain ⟨⟨e1, he1, hs1, hcur1⟩, ⟨e2, he2, hs2⟩⟩ :=
          hnotif j (by omega) hjk
        constructor
        · refine ⟨e1, ?_, hs1, hcur1⟩
          have hsub : 2 * (j - i) = (2 * (j - (i + 1)) + 1) + 1 := by omega
          rw [hsub, List.get?_cons_succ, List.get?_cons_succ]
          exact he1
        · refine ⟨e2, ?_, hs2⟩
          have hsub : 2 * (j - i) + 1 = (2 * (j - (i + 1)) + 1 + 1) + 1 := by
            omega
          rw [hsub, List.get?_cons_succ, List.get?_cons_succ]
          exact he2

theorem initialExecution_steps_length (flow : ParsedFlow) :
    (initialExecution flow).steps.length = flow.steps.length := by
  simp [initialExecution]

theorem initialExecution_steps_get? (flow : ParsedFlow) (j : Nat) :
    (initialExecution flow).steps.get? j = (flow.steps.get? j).map pendingInit := by
  simp [initialExecution, List.get?_map]

theorem execute_eq (client : LLMClient) (flow : ParsedFlow) (input : String)
    (ns : List FlowExecution) (cs : List ChatRequest)
    (r : Except String FlowExecution)
    (h : runSteps client flow (initialExecution flow) 0 input 1 = (ns, cs, r)) :
    execute client flow input = (initialExecution flow :: ns, cs, r) := by
  simp [execute, h]

theorem mkStepRequest_inj {p q : String} (h : mkStepRequest p = mkStepRequest q) :
    p = q := by
  simpa [mkStepRequest, ChatRequest.mk.injEq, Message.mk.injEq] using h

/-! ## Demonstration instances used by the witnesses -/

/-- A concrete two-step flow. -/
def demoFlow : ParsedFlow :=
  { steps := [
      { order := 1, instruction := "Write a haiku", usesPreviousOutput := false },
      { order := 2, instruction := "Summarize this", usesPreviousOutput := true }],
    rawDescription := "Write a haiku then summarize this" }

/-- A provider client that always succeeds with a fixed content. -/
def demoClient : LLMClient :=
  fun _ _ => Except.ok { content := "demo output", provider := "test",
                         model := "test" }

/-- The second step of `demoFlow`. -/
def demoStep2 : FlowStep :=
  { order := 2, instruction := "Summarize this", usesPreviousOutput := true }

/-- A provider client whose responses are all empty. -/
def demoEmptyClient : LLMClient :=
  fun _ _ => Except.ok { content := "", provider := "test", model := "test" }

/-- A provider client that succeeds on call 0 and fails from call 1 on. -/
def demoFailClient : LLMClient :=
  fun i req => if i < 1 then demoClient i req else Except.error "boom"

/-! ## Claim theorems -/

/-- C1: for every `ParsedFlow` with `N ≥ 1` steps and a provider client
whose `chat` call always succeeds, `FlowExecutor.execute` returns a
`FlowExecution` with status `completed`, all `N` step executions
`completed` — each carrying the content of the client's response to
that step's request as its output — and `currentStepIndex = N − 1`. -/
theorem flowExecutor_all_success (client : LLMClient) (flow : ParsedFlow)
    (input : String) (hc : ∀ j req, ∃ resp, client j req = Except.ok resp)
    (hN : 0 < flow.steps.length) :
    ∃ final,
      (execute client flow input).2.2 = Except.ok final ∧
      final.status = FlowStatus.completed ∧
      final.currentStepIndex = flow.steps.length - 1 ∧
      final.steps.length = flow.steps.length ∧
      (∀ j, j < flow.steps.length → ∃ p resp se,
        (execute client flow input).2.1.get? j = some (mkStepRequest p) ∧
        client j (mkStepRequest p) = Except.ok resp ∧
        final.steps.get? j = some se ∧
        se.status = StepStatus.completed ∧
        se.output = some resp.content) := by
  rcases hrun : runSteps client flow (initialExecution flow) 0 input 1
    with ⟨ns, cs, r⟩
  rw [execute_eq client flow input ns cs r hrun]
  obtain ⟨final, hfr, _, _, _, hfs, _, hfsl, hfc, _, hmid, _, _, _⟩ :=
    runSteps_ok_master client flow hc flow.steps.length 0
      (initialExecution flow) input 1 (by omega)
      (initialExecution_steps_length flow) ns cs r hrun
  refine ⟨final, hfr, hfs, ?_, hfsl, ?_⟩
  · rw [hfc, if_pos hN]
  · intro j hj
    obtain ⟨p, resp, se, h1, h2, h3, h4, h5, _⟩ := hmid j (Nat.zero_le j) hj
    refine ⟨p, resp, se, ?_, h2, h3, h4, h5⟩
    simpa using h1

/-- Witness for C1 at a concrete two-step flow and a client that
always answers with content `"demo output"`. -/
theorem flowExecutor_all_success_witness :
    (∀ j req, ∃ resp, demoClient j req = Except.ok resp) ∧
    0 < demoFlow.steps.length ∧
    (∃ final,
      (execute demoClient demoFlow "in").2.2 = Except.ok final ∧
      final.status = FlowStatus.completed ∧
      final.currentStepIndex = demoFlow.steps.length - 1 ∧
      final.steps.length = demoFlow.steps.length ∧
      (∀ j, j < demoFlow.steps.length → ∃ p resp se,
        (execute demoClient demoFlow "in").2.1.get? j = some (mkStepRequest p) ∧
        demoClient j (mkStepRequest p) = Except.ok resp ∧
        final.steps.get? j = some se ∧
        se.status = StepStatus.completed ∧
        se.output = some resp.content)) :=
  ⟨fun _ _ => ⟨_, rfl⟩, by decide,
   flowExecutor_all_success demoClient demoFlow "in" (fun _ _ => ⟨_, rfl⟩)
     (by decide)⟩

/-- C2: when the provider client succeeds on every call before step `k`
and fails at step `k` (with `k` inside the flow), `execute` completes
steps `0..k−1`, marks step `k` `error` with the message recorded and an
end time set, leaves steps `k+1..N−1` `pending`, sets the flow status
to `error`, makes exactly `k+1` provider calls (so no step after `k`
runs), and rethrows the same error to its caller. -/
theorem flowExecutor_fail_fast (client : LLMClient) (flow : ParsedFlow)
    (input : String) (k : Nat) (msg : String)
    (hbefore : ∀ j req, j < k → ∃ resp, client j req = Except.ok resp)
    (hat : ∀ req, client k req = Except.error msg)
    (hk : k < flow.steps.length) :
    (execute client flow input).2.2 = Except.error msg ∧
    (execute client flow input).2.1.length = k + 1 ∧
    ∃ final,
      (execute client flow input).1.getLast? = some final ∧
      final.status = FlowStatus.error ∧
      final.endTime.isSome = true ∧
      final.steps.length = flow.steps.length ∧
      (∀ j, j < k → ∃ se, final.steps.get? j = some se ∧
        se.status = StepStatus.completed) ∧
      (∃ se, final.steps.get? k = some se ∧ se.status = StepStatus.error ∧
        se.error = some msg ∧ se.endTime.isSome = true) ∧
      (∀ j, k < j → j < flow.steps.length → ∃ se,
        final.steps.get? j = some se ∧ se.status = StepStatus.pending) := by
  rcases hrun : runSteps client flow (initialExecution flow) 0 input 1
    with ⟨ns, cs, r⟩
  rw [execute_eq client flow input ns cs r hrun]
  obtain ⟨hr, hcsl, hnsl, final, hfl, hfs, hfe, hfsl, _, hmid, hatk, hpost, _⟩ :=
    runSteps_fail_master client flow k msg hbefore hat k 0
      (initialExecution flow) input 1 (by omega) (Nat.zero_le k) hk
      (initialExecution_steps_length flow) ns cs r hrun
  refine ⟨hr, by simpa using hcsl, final,
    getLast?_cons_some _ _ _ hfl, hfs, hfe, hfsl, ?_, hatk, ?_⟩
  · intro j hj
    obtain ⟨se, h1, h2, _⟩ := hmid j (Nat.zero_le j) hj
    exact ⟨se, h1, h2⟩
  · intro j hkj hjN
    have hpj := hpost j hkj
    rw [initialExecution_steps_get?] at hpj
    have hst : flow.steps.get? j = some (flow.steps.get ⟨j, hjN⟩) :=
      List.get?_eq_get hjN
    refine ⟨pendingInit (flow.steps.get ⟨j, hjN⟩), ?_, rfl⟩
    rw [hpj, hst]
    rfl

/-- Witness for C2 at a concrete two-step flow and a client that
succeeds on call 0 and fails on call 1 with message `"boom"`. -/
theorem flowExecutor_fail_fast_witness :
    (∀ j req, j < 1 → ∃ resp, demoFailClient j req = Except.ok resp) ∧
    (∀ req, demoFailClient 1 req = Except.error "boom") ∧
    1 < demoFlow.steps.length ∧
    ((execute demoFailClient demoFlow "in").2.2 = Except.error "boom" ∧
     (execute demoFailClient demoFlow "in").2.1.length = 1 + 1 ∧
     ∃ final,
       (execute demoFailClient demoFlow "in").1.getLast? = some final ∧
       final.status = FlowStatus.error ∧
       final.endTime.isSome = true ∧
       final.steps.length = demoFlow.steps.length ∧
       (∀ j, j < 1 → ∃ se, final.steps.get? j = some se ∧
         se.status = StepStatus.completed) ∧
       (∃ se, final.steps.get? 1 = some se ∧ se.status = StepStatus.error ∧
         se.error = some "boom" ∧ se.endTime.isSome = true) ∧
       (∀ j, 1 < j → j < demoFlow.steps.length → ∃ se,
         final.steps.get? j = some se ∧ se.status = StepStatus.pending)) :=
  ⟨fun j req hj =>
     ⟨{ content := "demo output", provider := "test", model := "test" },
      by simp [demoFailClient, demoClient, hj]⟩,
   fun req => by simp [demoFailClient],
   by decide,
   flowExecutor_fail_fast demoFailClient demoFlow "in" 1 "boom"
     (fun j req hj =>
       ⟨{ content := "demo output", provider := "test", model := "test" },
        by simp [demoFailClient, demoClient, hj]⟩)
     (fun req => by simp [demoFailClient])
     (by decide)⟩

/-- C3: with a progress observer supplied, a run that fails at step `k`
(0-indexed, after `k` successes) invokes the observer exactly
`1 + 2·(k+1)` times — one initial all-pending snapshot, then for each
attempted step `j ≤ k` one `running` snapshot at position `1 + 2·j`
and one terminal snapshot (`completed` for `j < k`, `error` for
`j = k`) at position `2 + 2·j`, in chronological order — and a run of
all `N` steps with no failure invokes it exactly `2·N + 2` times. -/
theorem flowExecutor_progress_count (client clientOk : LLMClient)
    (flow : ParsedFlow) (input : String) (k : Nat) (msg : String)
    (hbefore : ∀ j req, j < k → ∃ resp, client j req = Except.ok resp)
    (hat : ∀ req, client k req = Except.error msg)
    (hk : k < flow.steps.length)
    (hok : ∀ j req, ∃ resp, clientOk j req = Except.ok resp) :
    ((execute client flow input).1.length = 1 + 2 * (k + 1) ∧
     (∃ e0, (execute client flow input).1.get? 0 = some e0 ∧
        ∀ se ∈ e0.steps, se.status = StepStatus.pending) ∧
     (∀ j, j ≤ k →
       (∃ e1, (execute client flow input).1.get? (1 + 2 * j) = some e1 ∧
         (e1.steps.get? j).map StepExecution.status = some StepStatus.running ∧
         e1.currentStepIndex = j) ∧
       (∃ e2, (execute client flow input).1.get? (2 + 2 * j) = some e2 ∧
         (e2.steps.get? j).map StepExecution.status =
           some (if j < k then StepStatus.completed else StepStatus.error)))) ∧
    (execute clientOk flow input).1.length = 2 * flow.steps.length + 2 := by
  constructor
  · rcases hrun : runSteps client flow (initialExecution flow) 0 input 1
      with ⟨ns, cs, r⟩
    rw [execute_eq client flow input ns cs r hrun]
    obtain ⟨_, _, hnsl, final, _, _, _, _, _, _, _, _, hnotif⟩ :=
      runSteps_fail_master client flow k msg hbefore hat k 0
        (initialExecution flow) input 1 (by omega) (Nat.zero_le k) hk
        (initialExecution_steps_length flow) ns cs r hrun
    refine ⟨?_, ?_, ?_⟩
    · simp only [List.length_cons]
      omega
    · refine ⟨initialExecution flow, rfl, ?_⟩
      intro se hse
      simp only [initialExecution, List.mem_map] at hse
      obtain ⟨st, _, hst⟩ := hse
      rw [← hst]
      rfl
    · intro j hj
      obtain ⟨⟨e1, he1, hs1, hcur1⟩, ⟨e2, he2, hs2⟩⟩ :=
        hnotif j (Nat.zero_le j) hj
      constructor
      · refine ⟨e1, ?_, hs1, hcur1⟩
        have hsub : 1 + 2 * j = (2 * (j - 0)) + 1 := by omega
        rw [hsub, List.get?_cons_succ]
        exact he1
      · refine ⟨e2, ?_, hs2⟩
        have hsub : 2 + 2 * j = (2 * (j - 0) + 1) + 1 := by omega
        rw [hsub, List.get?_cons_succ]
        exact he2
  · rcases hrun : runSteps clientOk flow (initialExecution flow) 0 input 1
      with ⟨ns, cs, r⟩
    rw [execute_eq clientOk flow input ns cs r hrun]
    obtain ⟨_, _, hnsl, _⟩ :=
      runSteps_ok_master clientOk flow hok flow.steps.length 0
        (initialExecution flow) input 1 (by omega)
        (initialExecution_steps_length flow) ns cs r hrun
    simp only [List.length_cons]
    omega

/-- Witness for C3 at a concrete two-step flow: failure at step `k = 1`
gives `1 + 2·2 = 5` notifications, and an all-success run gives
`2·2 + 2 = 6`. -/
theorem flowExecutor_progress_count_witness :
    (∀ j req, j < 1 → ∃ resp, demoFailClient j req = Except.ok resp) ∧
    (∀ req, demoFailClient 1 req = Except.error "boom") ∧
    1 < demoFlow.steps.length ∧
    (∀ j req, ∃ resp, demoClient j req = Except.ok resp) ∧
    (((execute demoFailClient demoFlow "in").1.length = 1 + 2 * (1 + 1) ∧
      (∃ e0, (execute demoFailClient demoFlow "in").1.get? 0 = some e0 ∧
         ∀ se ∈ e0.steps, se.status = StepStatus.pending) ∧
      (∀ j, j ≤ 1 →
        (∃ e1, (execute demoFailClient demoFlow "in").1.get? (1 + 2 * j) = some e1 ∧
          (e1.steps.get? j).map StepExecution.status = some StepStatus.running ∧
          e1.currentStepIndex = j) ∧
        (∃ e2, (execute demoFailClient demoFlow "in").1.get? (2 + 2 * j) = some e2 ∧
          (e2.steps.get? j).map StepExecution.status =
            some (if j < 1 then StepStatus.completed else StepStatus.error)))) ∧
     (execute demoClient demoFlow "in").1.length = 2 * demoFlow.steps.length + 2) :=
  ⟨fun j req hj =>
     ⟨{ content := "demo output", provider := "test", model := "test" },
      by simp [demoFailClient, demoClient, hj]⟩,
   fun req => by simp [demoFailClient],
   by decide,
   fun _ _ => ⟨_, rfl⟩,
   flowExecutor_progress_count demoFailClient demoClient demoFlow "in" 1 "boom"
     (fun j req hj =>
       ⟨{ content := "demo output", provider := "test", model := "test" },
        by simp [demoFailClient, demoClient, hj]⟩)
     (fun req => by simp [demoFailClient])
     (by decide)
     (fun _ _ => ⟨_, rfl⟩)⟩

/-- C10: `formatStepPrompt` returns the instruction unchanged whenever
the step does not use the previous output, or no previous output is
supplied, or the previous output is the empty string; consequently, in
a flow execution where the response to step `j` had empty content, the
request for step `j+1` carries step `j+1`'s bare instruction. -/
theorem formatStepPrompt_passthrough :
    (∀ step prev, step.usesPreviousOutput = false ∨ prev = none ∨
        prev = some "" →
      formatStepPrompt step prev = step.instruction) ∧
    (∀ (client : LLMClient) (flow : ParsedFlow) (input : String) (j : Nat)
        (p : String) (st : FlowStep) (resp : ChatResponse),
      (∀ jj req, ∃ r, client jj req = Except.ok r) →
      (execute client flow input).2.1.get? j = some (mkStepRequest p) →
      client j (mkStepRequest p) = Except.ok resp →
      resp.content = "" →
      flow.steps.get? (j + 1) = some st →
      (execute client flow input).2.1.get? (j + 1) =
        some (mkStepRequest st.instruction)) := by
  have hpure : ∀ step prev, step.usesPreviousOutput = false ∨ prev = none ∨
      prev = some "" → formatStepPrompt step prev = step.instruction := by
    intro step prev hcase
    have hcond : ¬ (step.usesPreviousOutput = true ∧
        Option.getD prev "" ≠ "") := by
      rcases hcase with h1 | h2 | h3
      · simp [h1]
      · subst h2
        simp
      · subst h3
        simp
    unfold formatStepPrompt
    rw [if_neg hcond]
  refine ⟨hpure, ?_⟩
  intro client flow input j p st resp hc hget hresp hempty hst
  rcases hrun : runSteps client flow (initialExecution flow) 0 input 1
    with ⟨ns, cs, r⟩
  rw [execute_eq client flow input ns cs r hrun] at hget ⊢
  obtain ⟨final, _, _, _, _, _, _, _, _, _, _, _, hchain, _⟩ :=
    runSteps_ok_master client flow hc flow.steps.length 0
      (initialExecution flow) input 1 (by omega)
      (initialExecution_steps_length flow) ns cs r hrun
  obtain ⟨p', resp', hcs', hcli', hnext⟩ := hchain j st (Nat.zero_le j) hst
  simp only [Nat.sub_zero] at hcs' hnext
  have hpp : p' = p := by
    apply mkStepRequest_inj
    have : some (mkStepRequest p') = some (mkStepRequest p) := by
      rw [← hcs']
      exact hget
    exact Option.some.inj this
  rw [hpp] at hcli'
  have hrr : resp' = resp := by
    have := hcli'.symm.trans hresp
    exact Except.ok.inj this
  have hempty2 : resp'.content = "" := by
    rw [hrr]
    exact hempty
  rw [hnext]
  rw [hpure st (some resp'.content) (Or.inr (Or.inr (by rw [hempty2])))]

/-- Witness for C10: a step that ignores the previous output keeps its
bare instruction, and in a concrete run whose first response is empty
the second request carries the bare instruction `"Summarize this"`. -/
theorem formatStepPrompt_passthrough_witness :
    ((demoFlow.steps.get ⟨0, by decide⟩).usesPreviousOutput = false ∨
       (some "x" : Option String) = none ∨ (some "x" : Option String) = some "") ∧
    formatStepPrompt (demoFlow.steps.get ⟨0, by decide⟩) (some "x") =
      (demoFlow.steps.get ⟨0, by decide⟩).instruction ∧
    ((∀ jj req, ∃ r, demoEmptyClient jj req = Except.ok r) ∧
     (execute demoEmptyClient demoFlow "in").2.1.get? 0 =
       some (mkStepRequest "Write a haiku") ∧
     demoEmptyClient 0 (mkStepRequest "Write a haiku") =
       Except.ok { content := "", provider := "test", model := "test" } ∧
     ({ content := "", provider := "test", model := "test" } : ChatResponse).content
       = "" ∧
     demoFlow.steps.get? 1 = some demoStep2 ∧
     (execute demoEmptyClient demoFlow "in").2.1.get? 1 =
       some (mkStepRequest "Summarize this")) :=
  ⟨Or.inl (by decide),
   formatStepPrompt_passthrough.1 (demoFlow.steps.get ⟨0, by decide⟩) (some "x")
     (Or.inl (by decide)),
   fun _ _ => ⟨_, rfl⟩,
   rfl,
   rfl,
   rfl,
   rfl,
   formatStepPrompt_passthrough.2 demoEmptyClient demoFlow "in" 0
     "Write a haiku" demoStep2
     { content := "", provider := "test", model := "test" }
     (fun _ _ => ⟨_, rfl⟩) rfl rfl rfl rfl⟩

/-- A step whose instruction contains no reference word. -/
def demoListStep : FlowStep :=
  { order := 2, instruction := "List 3 facts", usesPreviousOutput := true }

/-- A parsed flow whose single step has an empty instruction. -/
def demoBadFlow : ParsedFlow :=
  { steps := [{ order := 1, instruction := "", usesPreviousOutput := false }],
    rawDescription := "bad" }

/-- C4: for a step that uses the previous output, with a nonempty
previous output, `formatStepPrompt` prepends the output under
`"Given this content:"` exactly when the instruction matches the
reference-word test, else appends it under `"Content to work with:"`;
for instruction `"Summarize this"` and previous output
`"Lorem ipsum"` the prompt begins with
`"Given this content:\n\nLorem ipsum\n\n"`, and for `"List 3 facts"`
it ends with `"\n\nContent to work with:\nLorem ipsum"`. -/
theorem formatStepPrompt_merge_heuristic :
    (∀ (step : FlowStep) (prev : String), step.usesPreviousOutput = true →
      prev ≠ "" →
      formatStepPrompt step (some prev) =
        (if referencesOutput step.instruction then
          "Given this content:\n\n" ++ prev ++ "\n\n" ++ step.instruction
         else step.instruction ++ "\n\nContent to work with:\n" ++ prev)) ∧
    (∃ rest, formatStepPrompt demoStep2 (some "Lorem ipsum") =
      "Given this content:\n\nLorem ipsum\n\n" ++ rest) ∧
    (∃ pre, formatStepPrompt demoListStep (some "Lorem ipsum") =
      pre ++ "\n\nContent to work with:\nLorem ipsum") := by
  refine ⟨?_, ⟨"Summarize this", by decide⟩, ⟨"List 3 facts", by decide⟩⟩
  intro step prev h1 h2
  unfold formatStepPrompt
  simp only [Option.getD_some]
  rw [if_pos ⟨h1, h2⟩]

/-- Witness for C4 at the step `"Summarize this"` with previous output
`"Lorem ipsum"`. -/
theorem formatStepPrompt_merge_heuristic_witness :
    demoStep2.usesPreviousOutput = true ∧ ("Lorem ipsum" : String) ≠ "" ∧
    formatStepPrompt demoStep2 (some "Lorem ipsum") =
      (if referencesOutput demoStep2.instruction then
        "Given this content:\n\n" ++ "Lorem ipsum" ++ "\n\n" ++
          demoStep2.instruction
       else demoStep2.instruction ++ "\n\nContent to work with:\n" ++
          "Lorem ipsum") :=
  ⟨rfl, by decide,
   formatStepPrompt_merge_heuristic.1 demoStep2 "Lorem ipsum" rfl (by decide)⟩

theorem validateSteps_mem :
    ∀ (l : List FlowStep) (s : FlowStep), s ∈ l → s.instruction = "" →
      (validateSteps l).valid = false := by
  intro l
  induction l with
  | nil =>
    intro s hs
    simp at hs
  | cons a rest ih =>
    intro s hs he
    unfold validateSteps
    by_cases hbad : a.instruction = "" ∨ jsTrim a.instruction = ""
    · rw [if_pos hbad]
    · rw [if_neg hbad]
      rcases List.mem_cons.mp hs with hsa | hsr
      · subst hsa
        exact absurd (Or.inl he) hbad
      · exact ih s hsr he

/-- C5: a parsed flow with zero steps or with a step whose instruction
text is empty fails validation, and the execution pipeline (validate,
then execute — `ui/flows.ts`, `handleExecuteFlow`) stops on the
validation error before any step executes: no progress notification is
issued, no provider call is made, and no `FlowExecution` is returned —
only the validation error. -/
theorem flow_validation_blocks_execution (client : LLMClient)
    (flow : ParsedFlow) (input : String)
    (h : flow.steps = [] ∨ ∃ s ∈ flow.steps, s.instruction = "") :
    (validateFlow flow).valid = false ∧
    (executeFlowPipeline client flow input).1 = [] ∧
    (executeFlowPipeline client flow input).2.1 = [] ∧
    ∃ e, (executeFlowPipeline client flow input).2.2 = Except.error e := by
  have hv : (validateFlow flow).valid = false := by
    rcases h with h0 | ⟨s, hs, hempty⟩
    · simp [validateFlow, h0]
    · have hsv := validateSteps_mem flow.steps s hs hempty
      unfold validateFlow
      by_cases hlen : flow.steps.length = 0
      · rw [if_pos hlen]
      · rw [if_neg hlen]
        exact hsv
  refine ⟨hv, ?_, ?_, ?_⟩ <;> simp [executeFlowPipeline, hv]

/-- Witness for C5 at a concrete one-step flow whose instruction is
empty. -/
theorem flow_validation_blocks_execution_witness :
    (demoBadFlow.steps = [] ∨ ∃ s ∈ demoBadFlow.steps, s.instruction = "") ∧
    ((validateFlow demoBadFlow).valid = false ∧
     (executeFlowPipeline demoClient demoBadFlow "in").1 = [] ∧
     (executeFlowPipeline demoClient demoBadFlow "in").2.1 = [] ∧
     ∃ e, (executeFlowPipeline demoClient demoBadFlow "in").2.2 =
       Except.error e) :=
  ⟨by decide,
   flow_validation_blocks_execution demoClient demoBadFlow "in" (by decide)⟩

/-! ## Streaming lemmas -/

theorem concatAll_nil : concatAll [] = "" := rfl

theorem concatAll_cons (x : String) (l : List String) :
    concatAll (x :: l) = x ++ concatAll l := rfl

theorem concatAll_append (a b : List String) :
    concatAll (a ++ b) = concatAll a ++ concatAll b := by
  induction a with
  | nil =>
    apply String.ext
    simp [concatAll_nil]
  | cons x a ih =>
    simp only [List.cons_append, concatAll_cons, ih, String.append_assoc]

theorem nonTerminalContents_append (a b : List StreamChunk) :
    nonTerminalContents (a ++ b) =
      nonTerminalContents a ++ nonTerminalContents b := by
  simp [nonTerminalContents, List.filterMap_append]

theorem openAIStreamLoop_invariant :
    ∀ (events : List OpenAIData) (emitted : List StreamChunk) (full : String),
      full = concatAll (nonTerminalContents emitted) →
      (openAIStreamLoop events emitted full).2 =
        concatAll (nonTerminalContents (openAIStreamLoop events emitted full).1) := by
  intro events
  induction events with
  | nil =>
    intro emitted full h
    simpa [openAIStreamLoop] using h
  | cons ev rest ih =>
    intro emitted full h
    cases ev with
    | doneMarker =>
      simp only [openAIStreamLoop]
      apply ih
      rw [nonTerminalContents_append, h]
      apply String.ext
      simp [nonTerminalContents, concatAll_append]
    | delta c =>
      simp only [openAIStreamLoop]
      split
      · exact ih emitted full h
      · apply ih
        rw [nonTerminalContents_append, concatAll_append, h]
        apply String.ext
        simp [nonTerminalContents, concatAll_cons, concatAll_nil]
    | invalid =>
      simp only [openAIStreamLoop]
      exact ih emitted full h

theorem claudeStreamLoop_invariant :
    ∀ (events : List ClaudeData) (emitted : List StreamChunk) (full : String),
      full = concatAll (nonTerminalContents emitted) →
      (claudeStreamLoop events emitted full).2 =
        concatAll (nonTerminalContents (claudeStreamLoop events emitted full).1) := by
  intro events
  induction events with
  | nil =>
    intro emitted full h
    simpa [claudeStreamLoop] using h
  | cons ev rest ih =>
    intro emitted full h
    cases ev with
    | contentBlockDelta txt =>
      simp only [claudeStreamLoop]
      split
      · exact ih emitted full h
      · apply ih
        rw [nonTerminalContents_append, concatAll_append, h]
        apply String.ext
        simp [nonTerminalContents, concatAll_cons, concatAll_nil]
    | messageStop =>
      simp only [claudeStreamLoop]
      apply ih
      rw [nonTerminalContents_append, h]
      apply String.ext
      simp [nonTerminalContents, concatAll_append]
    | otherEvent =>
      simp only [claudeStreamLoop]
      exact ih emitted full h
    | invalid =>
      simp only [claudeStreamLoop]
      exact ih emitted full h

theorem emitted_take_monotone (chunks : List StreamChunk) (n : Nat) :
    ∃ s, concatAll (nonTerminalContents (chunks.take (n + 1))) =
      concatAll (nonTerminalContents (chunks.take n)) ++ s := by
  refine ⟨concatAll (nonTerminalContents (chunks[n]?.toList)), ?_⟩
  rw [List.take_succ, nonTerminalContents_append, concatAll_append]

/-- C6: in streaming mode both provider clients emit only
monotonically accumulating content — after every additional observer
invocation the total non-terminal text so far extends the previous
total — and the returned `ChatResponse.content` equals the
concatenation of all non-terminal chunk contents; feeding the deltas
`"Hel"`, `"lo"`, then the terminal marker yields content `"Hello"`
with exactly 2 non-terminal invocations and no content added by the
terminal marker. -/
theorem streaming_accumulation :
    (∀ (model : String) (events : List OpenAIData) (n : Nat), ∃ s,
      concatAll (nonTerminalContents
        (((openAIHandleStream model events).1).take (n + 1))) =
      concatAll (nonTerminalContents
        (((openAIHandleStream model events).1).take n)) ++ s) ∧
    (∀ (model : String) (events : List OpenAIData),
      (openAIHandleStream model events).2.content =
        concatAll (nonTerminalContents (openAIHandleStream model events).1)) ∧
    (∀ (model : String) (events : List ClaudeData) (n : Nat), ∃ s,
      concatAll (nonTerminalContents
        (((claudeHandleStream model events).1).take (n + 1))) =
      concatAll (nonTerminalContents
        (((claudeHandleStream model events).1).take n)) ++ s) ∧
    (∀ (model : String) (events : List ClaudeData),
      (claudeHandleStream model events).2.content =
        concatAll (nonTerminalContents (claudeHandleStream model events).1)) ∧
    (openAIHandleStream "m"
        [OpenAIData.delta (some "Hel"), OpenAIData.delta (some "lo"),
         OpenAIData.doneMarker] =
      ([{ content := "Hel", done := false }, { content := "lo", done := false },
        { content := "", done := true }],
       { content := "Hello", provider := "openai", model := "m",
         usage := none }) ∧
     (nonTerminalContents (openAIHandleStream "m"
        [OpenAIData.delta (some "Hel"), OpenAIData.delta (some "lo"),
         OpenAIData.doneMarker]).1).length = 2) ∧
    (claudeHandleStream "m"
        [ClaudeData.contentBlockDelta (some "Hel"),
         ClaudeData.contentBlockDelta (some "lo"),
         ClaudeData.messageStop] =
      ([{ content := "Hel", done := false }, { content := "lo", done := false },
        { content := "", done := true }],
       { content := "Hello", provider := "claude", model := "m",
         usage := none }) ∧
     (nonTerminalContents (claudeHandleStream "m"
        [ClaudeData.contentBlockDelta (some "Hel"),
         ClaudeData.contentBlockDelta (some "lo"),
         ClaudeData.messageStop]).1).length = 2) := by
  refine ⟨?_, ?_, ?_, ?_, ⟨by decide, by decide⟩, ⟨by decide, by decide⟩⟩
  · intro model events n
    exact emitted_take_monotone (openAIHandleStream model events).1 n
  · intro model events
    exact openAIStreamLoop_invariant events [] "" rfl
  · intro model events n
    exact emitted_take_monotone (claudeHandleStream model events).1 n
  · intro model events
    exact claudeStreamLoop_invariant events [] "" rfl

/-! ## Claude request-construction lemmas -/

theorem isConversationMessage_of_system (m : Message)
    (hm : m.role = Role.system) : isConversationMessage m = false := by
  simp [isConversationMessage, hm]

theorem isConversationMessage_of_not_system (m : Message)
    (hm : ¬ m.role = Role.system) : isConversationMessage m = true := by
  simp [isConversationMessage, hm]

theorem isSystemMessage_of_system (m : Message)
    (hm : m.role = Role.system) : isSystemMessage m = true := by
  simp [isSystemMessage, hm]

theorem isSystemMessage_of_not_system (m : Message)
    (hm : ¬ m.role = Role.system) : isSystemMessage m = false := by
  simp [isSystemMessage, hm]

theorem dropExtra_filter_nonsystem :
    ∀ (seen : Bool) (l : List Message),
      (dropExtraSystems seen l).filter isConversationMessage =
        l.filter isConversationMessage := by
  intro seen l
  induction l generalizing seen with
  | nil => rfl
  | cons m rest ih =>
    by_cases hm : m.role = Role.system
    · have hc := isConversationMessage_of_system m hm
      cases seen with
      | true =>
        simp only [dropExtraSystems, if_pos hm, if_true]
        simp [List.filter_cons, hc, ih true]
      | false =>
        simp only [dropExtraSystems, if_pos hm, if_false]
        simp [List.filter_cons, hc, ih true]
    · have hc := isConversationMessage_of_not_system m hm
      simp only [dropExtraSystems, if_neg hm]
      simp [List.filter_cons, hc, ih seen]

theorem dropExtra_filter_system_true :
    ∀ (l : List Message),
      (dropExtraSystems true l).filter isSystemMessage = [] := by
  intro l
  induction l with
  | nil => rfl
  | cons m rest ih =>
    by_cases hm : m.role = Role.system
    · simp only [dropExtraSystems, if_pos hm, if_true]
      exact ih
    · have hc := isSystemMessage_of_not_system m hm
      simp only [dropExtraSystems, if_neg hm]
      simp [List.filter_cons, hc, ih]

theorem dropExtra_filter_system_false :
    ∀ (l : List Message),
      (dropExtraSystems false l).filter isSystemMessage =
        (l.filter isSystemMessage).take 1 := by
  intro l
  induction l with
  | nil => rfl
  | cons m rest ih =>
    by_cases hm : m.role = Role.system
    · have hc := isSystemMessage_of_system m hm
      simp only [dropExtraSystems, if_pos hm, if_false]
      simp [List.filter_cons, hc, dropExtra_filter_system_true]
    · have hc := isSystemMessage_of_not_system m hm
      simp only [dropExtraSystems, if_neg hm]
      simp [List.filter_cons, hc, ih]

/-- A request with a user and an assistant message and no system
message. -/
def demoReq : ChatRequest :=
  { messages := [{ role := Role.user, content := "hi" },
                 { role := Role.assistant, content := "yo" }] }

/-- C7: the body built by the Claude client contains no system-role
entry in its conversation array; its top-level `system` field carries
the content of the first system message when one exists (and is absent
otherwise); and the body is unchanged when every system message after
the first is removed — extra system messages are silently dropped, not
an error. -/
theorem claude_system_message_extraction (model : String) (req : ChatRequest)
    (hasOnStream : Bool) :
    (∀ wm ∈ (claudeBuildBody model req hasOnStream).messages,
      wm.role ≠ "system") ∧
    ((claudeBuildBody model req hasOnStream).system =
      (req.messages.find? isSystemMessage).map Message.content) ∧
    ((∀ m ∈ req.messages, m.role ≠ Role.system) →
      (claudeBuildBody model req hasOnStream).system = none) ∧
    (claudeBuildBody model
        { req with messages := dropExtraSystems false req.messages }
        hasOnStream =
      claudeBuildBody model req hasOnStream) := by
  have hsys : ∀ (msgs : List Message),
      (match msgs.filter isSystemMessage with
        | [] => none
        | m :: _ => some m.content) =
      (msgs.find? isSystemMessage).map Message.content := by
    intro msgs
    rw [← List.filter_head?]
    cases msgs.filter isSystemMessage with
    | nil => rfl
    | cons m ms => rfl
  refine ⟨?_, hsys req.messages, ?_, ?_⟩
  · intro wm hwm
    simp only [claudeBuildBody, List.mem_map, List.mem_filter] at hwm
    obtain ⟨m, _, hm⟩ := hwm
    rw [← hm]
    by_cases hu : m.role = Role.user
    · simp [hu]
    · simp [hu]
  · intro hnone
    have h2 : (claudeBuildBody model req hasOnStream).system =
        (req.messages.find? isSystemMessage).map Message.content :=
      hsys req.messages
    rw [h2, List.find?_eq_none.mpr ?_]
    · rfl
    · intro m hm
      exact isSystemMessage_of_not_system m (hnone m hm) ▸ (by simp)
  · unfold claudeBuildBody
    rw [dropExtra_filter_nonsystem false req.messages,
      dropExtra_filter_system_false req.messages]
    cases req.messages.filter isSystemMessage with
    | nil => rfl
    | cons m ms => rfl

/-- Witness for C7 at a concrete request with no system message. -/
theorem claude_system_message_extraction_witness :
    (∀ m ∈ demoReq.messages, m.role ≠ Role.system) ∧
    (claudeBuildBody "m" demoReq false).system = none :=
  ⟨by decide,
   (claude_system_message_extraction "m" demoReq false).2.2.1 (by decide)⟩

/-- C8 (amended): for every input description whose trimmed text is
nonempty, the `ParsedFlow` returned by `parseFlowDescription` contains
at least one step, order values exactly `1..N` contiguous in list
order, and a first step with `usesPreviousOutput = false`.  (The
original claim quantified over every description; the empty
description returns zero steps — see the counterexample.) -/
theorem parseFlowDescription_invariant (d : String) (h : jsTrim d ≠ "") :
    0 < (parseFlowDescription d).steps.length ∧
    (parseFlowDescription d).steps.map FlowStep.order =
      List.range' 1 (parseFlowDescription d).steps.length ∧
    (∃ st, (parseFlowDescription d).steps.head? = some st ∧
      st.usesPreviousOutput = false) := by
  have hd : ¬ (d = "" ∨ jsTrim d = "") := by
    rintro (rfl | h2)
    · exact h jsTrim_empty
    · exact h h2
  have hsteps : (parseFlowDescription d).steps =
      stepsFromSegs 0 (segmentsOf (jsTrim d)) := by
    unfold parseFlowDescription
    rw [if_neg hd]
  have hmem := segmentsOf_mem (jsTrim d) (jsTrim_jsTrim d) h
  have hnil := segmentsOf_ne_nil (jsTrim d)
  obtain ⟨seg, rest, hsegs⟩ : ∃ a l, segmentsOf (jsTrim d) = a :: l := by
    cases hsg : segmentsOf (jsTrim d) with
    | nil => exact absurd hsg hnil
    | cons a l => exact ⟨a, l, rfl⟩
  have hmap := stepsFromSegs_map_order (segmentsOf (jsTrim d)) 0 hmem
  have hlen : (stepsFromSegs 0 (segmentsOf (jsTrim d))).length =
      (segmentsOf (jsTrim d)).length := by
    have hml := congrArg List.length hmap
    simpa using hml
  refine ⟨?_, ?_, ?_⟩
  · rw [hsteps, hlen, hsegs]
    simp
  · rw [hsteps, hlen]
    simpa using hmap
  · rw [hsteps, hsegs]
    rw [stepsFromSegs_head seg rest 0 (hmem seg (hsegs ▸ List.mem_cons_self _ _))]
    exact ⟨_, rfl, rfl⟩

/-- Counterexample to C8 as stated: the empty description parses to a
flow with zero steps, violating the "at least one step" invariant. -/
theorem parseFlowDescription_empty_counterexample :
    (parseFlowDescription "").steps = [] ∧
    ¬ 0 < (parseFlowDescription "").steps.length := by
  exact ⟨rfl, by decide⟩

/-- Witness for the amended C8 at a concrete description. -/
theorem parseFlowDescription_invariant_witness :
    jsTrim "Summarize the file, then list 3 facts" ≠ "" ∧
    (0 < (parseFlowDescription "Summarize the file, then list 3 facts").steps.length ∧
     (parseFlowDescription "Summarize the file, then list 3 facts").steps.map
        FlowStep.order =
       List.range' 1 (parseFlowDescription
         "Summarize the file, then list 3 facts").steps.length ∧
     (∃ st, (parseFlowDescription
         "Summarize the file, then list 3 facts").steps.head? = some st ∧
       st.usesPreviousOutput = false)) :=
  ⟨by decide,
   parseFlowDescription_invariant "Summarize the file, then list 3 facts"
     (by decide)⟩

/-- C9 (amended): the serverless proxy handler answers 405 to every
request whose method is neither `POST` nor `OPTIONS` (an `OPTIONS`
preflight is answered 200 before the method check — see the
counterexample), and 400 to every `POST` whose body is missing any of
the required fields `provider`, `model`, `messages`. -/
theorem apiHandler_rejections :
    (∀ (method : HttpMethod) (body : Option ReqBody),
      method ≠ HttpMethod.POST → method ≠ HttpMethod.OPTIONS →
      apiHandler method body = HandlerOutcome.responded 405) ∧
    (∀ body : ReqBody,
      body.provider = none ∨ body.model = none ∨ body.messages = none →
      apiHandler HttpMethod.POST (some body) = HandlerOutcome.responded 400) := by
  constructor
  · intro method body h1 h2
    unfold apiHandler
    rw [if_neg h2, if_pos h1]
  · intro body h
    have hcond : body.provider.getD "" = "" ∨ body.model.getD "" = "" ∨
        body.messages = none := by
      rcases h with h | h | h
      · rw [h]
        exact Or.inl rfl
      · rw [h]
        exact Or.inr (Or.inl rfl)
      · exact Or.inr (Or.inr h)
    unfold apiHandler
    rw [if_neg (by decide : ¬ HttpMethod.POST = HttpMethod.OPTIONS),
      if_neg (by simp : ¬ HttpMethod.POST ≠ HttpMethod.POST)]
    show (if body.provider.getD "" = "" ∨ body.model.getD "" = "" ∨
        body.messages = none then HandlerOutcome.responded 400
      else if body.provider = some "claude" then
        HandlerOutcome.forwardedToProvider "claude"
      else if body.provider = some "openai" then
        HandlerOutcome.forwardedToProvider "openai"
      else HandlerOutcome.responded 400) = HandlerOutcome.responded 400
    rw [if_pos hcond]

/-- Counterexample to C9 as stated: an `OPTIONS` request is not a
`POST`, yet the handler answers 200 (CORS preflight), not 405. -/
theorem apiHandler_options_counterexample :
    HttpMethod.OPTIONS ≠ HttpMethod.POST ∧
    apiHandler HttpMethod.OPTIONS none = HandlerOutcome.responded 200 ∧
    apiHandler HttpMethod.OPTIONS none ≠ HandlerOutcome.responded 405 := by
  exact ⟨by decide, rfl, by decide⟩

/-- Witness for the amended C9 at a `GET` request and a `POST` with a
missing `provider` field. -/
theorem apiHandler_rejections_witness :
    HttpMethod.GET ≠ HttpMethod.POST ∧ HttpMethod.GET ≠ HttpMethod.OPTIONS ∧
    ({ provider := none, model := some "m", messages := some [] } :
      ReqBody).provider = none ∧
    apiHandler HttpMethod.GET none = HandlerOutcome.responded 405 ∧
    apiHandler HttpMethod.POST
        (some { provider := none, model := some "m", messages := some [] }) =
      HandlerOutcome.responded 400 :=
  ⟨by decide, by decide, rfl,
   apiHandler_rejections.1 HttpMethod.GET none (by decide) (by decide),
   apiHandler_rejections.2 _ (Or.inl rfl)⟩

end LLMRouter
